import Mathlib

/-!
A verification development for the route-extraction and deduplication engine
of the Go API documentation generator (`doc_generator.py`).

The Python source is shallowly embedded: strings are modelled as `List Char`
(wrapped in `String` at the interfaces), regex scanning is modelled by
hand-rolled maximal-munch matchers that reproduce the semantics of the
concrete patterns in the source, and the mutable analyzer object is modelled
as an explicit `AnalyzerState` threaded through the operations.
-/

set_option maxRecDepth 10000

namespace DocGen

/-- Characters stripped by Python `str.strip()` / matched by `\s` (ASCII). -/
def isSpaceCh (c : Char) : Bool :=
  c = ' ' || c = '\t' || c = '\n' || c = '\r' || c = '\x0b' || c = '\x0c'

/-- Characters matched by `\w` (ASCII). -/
def isWordCh (c : Char) : Bool :=
  c.isAlphanum || c = '_'

/-- Characters matched by `[A-Z]`. -/
def isUpperCh (c : Char) : Bool :=
  'A' ≤ c && c ≤ 'Z'

/-- The single-quote character. -/
def squote : Char := Char.ofNat 39

/-- The backtick character. -/
def btick : Char := Char.ofNat 96

/-- The opening curly brace character. -/
def lbrace : Char := Char.ofNat 123

/-- The closing curly brace character. -/
def rbrace : Char := Char.ofNat 125

/-- `startsWithL l pre` : does `l` start with `pre` (Python `startswith`). -/
def startsWithL : List Char → List Char → Bool
  | _, [] => true
  | [], _ :: _ => false
  | c :: l, d :: m => c = d && startsWithL l m

/-- Substring containment (Python `in` on strings). -/
def containsSub : List Char → List Char → Bool
  | hay, needle =>
    if startsWithL hay needle then true
    else
      match hay with
      | [] => false
      | _ :: t => containsSub t needle

/-- Python `str.strip()`: drop leading and trailing whitespace. -/
def stripL (l : List Char) : List Char :=
  ((l.dropWhile isSpaceCh).reverse.dropWhile isSpaceCh).reverse

/-- Python `str.split('\n')` (keeps empty pieces; `[]` input gives `[[]]`). -/
def splitOnNl : List Char → List (List Char)
  | [] => [[]]
  | c :: r =>
    if c = '\n' then [] :: splitOnNl r
    else
      match splitOnNl r with
      | h :: t => (c :: h) :: t
      | [] => [[c]]

/-- `split('\n')[-1]`: the text after the last newline. -/
def lastLineL (l : List Char) : List Char :=
  (l.reverse.takeWhile (fun c => c ≠ '\n')).reverse

/-- Python `str.lower()` (ASCII). -/
def lowerL (l : List Char) : List Char := l.map Char.toLower

/-- Python `str.upper()` (ASCII). -/
def upperL (l : List Char) : List Char := l.map Char.toUpper

/-- Fueled Python `str.replace(pat, rep)`: global, left-to-right. -/
def replaceSubF : Nat → List Char → List Char → List Char → List Char
  | 0, l, _, _ => l
  | _, [], _, _ => []
  | f + 1, c :: r, pat, rep =>
    if pat ≠ [] ∧ startsWithL (c :: r) pat then
      rep ++ replaceSubF f (List.drop (pat.length - 1) r) pat rep
    else
      c :: replaceSubF f r pat rep

/-- Python `str.replace(pat, rep)`. -/
def replaceSub (l pat rep : List Char) : List Char :=
  replaceSubF l.length l pat rep

/-- `re.sub(r'/+', '/', ·)`: collapse every run of slashes to one slash. -/
def collapse : List Char → List Char
  | [] => []
  | [c] => [c]
  | c1 :: c2 :: r =>
    if c1 = '/' ∧ c2 = '/' then collapse (c2 :: r)
    else c1 :: collapse (c2 :: r)

/-- No two adjacent slashes. -/
def noDupSlash : List Char → Bool
  | [] => true
  | [_] => true
  | c1 :: c2 :: r => !(c1 = '/' && c2 = '/') && noDupSlash (c2 :: r)

/-- Python `str.rstrip('/')`: drop trailing slashes. -/
def rstripSlash (l : List Char) : List Char :=
  (l.reverse.dropWhile (fun c => c = '/')).reverse

/-- `GoCodeAnalyzer._normalize_path`, on character lists. -/
def normalizeL (l : List Char) : List Char :=
  if l = [] then []
  else
    let s := stripL l
    let s := if startsWithL s ['/'] then s else '/' :: s
    let s := collapse s
    if 1 < s.length ∧ s.getLast? = some '/' then rstripSlash s else s

/-- `GoCodeAnalyzer._normalize_path`. -/
def normalize_path (path : String) : String :=
  String.mk (normalizeL path.toList)

/-! ### Scanning core

`findIter` reproduces `re.finditer` for the concrete patterns used by the
source: it tries a matcher at every position, from the left, and continues
after the end of each (non-empty) match.  Each matcher consumes characters by
maximal munch, which coincides with the regex semantics here because every
repeated character class in the source excludes the character that follows
it. -/

/-- Consume a literal text. -/
def eatLit : List Char → List Char → Option (List Char)
  | [], s => some s
  | _ :: _, [] => none
  | p :: ps, c :: cs => if c = p then eatLit ps cs else none

/-- Consume a literal, comparing case-insensitively (`re.IGNORECASE`);
returns the consumed text as it appeared. -/
def eatLitCI : List Char → List Char → Option (List Char × List Char)
  | [], s => some ([], s)
  | _ :: _, [] => none
  | p :: ps, c :: cs =>
    if c.toLower = p.toLower then
      (eatLitCI ps cs).map (fun t => (c :: t.1, t.2))
    else none

/-- `\s*`. -/
def eatSpaces (s : List Char) : List Char := s.dropWhile isSpaceCh

/-- A maximal non-empty run of characters satisfying `p` (`[class]+`). -/
def eatClass1 (p : Char → Bool) (s : List Char) : Option (List Char × List Char) :=
  match s.takeWhile p with
  | [] => none
  | run => some (run, s.dropWhile p)

/-- `\w+`. -/
def matchWord1 (s : List Char) : Option (List Char × List Char) :=
  eatClass1 isWordCh s

/-- The group `(["'][^"']*["']|` backtick `[^` backtick `]*` backtick `)`:
a quoted or backtick-delimited token, captured including its delimiters. -/
def matchStrLit (s : List Char) : Option (List Char × List Char) :=
  match s with
  | [] => none
  | c :: r =>
    if c = '"' ∨ c = squote then
      match r.dropWhile (fun d => !(d = '"' || d = squote)) with
      | d :: rest => some (c :: r.takeWhile (fun d => !(d = '"' || d = squote)) ++ [d], rest)
      | [] => none
    else if c = btick then
      match r.dropWhile (fun d => d ≠ btick) with
      | d :: rest => some (c :: r.takeWhile (fun d => d ≠ btick) ++ [d], rest)
      | [] => none
    else none

/-- Fueled `re.finditer`: `tryAt` returns the captured groups and the rest of
the input after the match.  Yields `(start, groups, end)` triples. -/
def findIterF (tryAt : List Char → Option (α × List Char)) :
    Nat → List Char → Nat → List (Nat × α × Nat)
  | 0, _, _ => []
  | _, [], _ => []
  | f + 1, c :: rest, i =>
    match tryAt (c :: rest) with
    | some (a, rem) =>
      let n := (c :: rest).length - rem.length
      if n = 0 then findIterF tryAt f rest (i + 1)
      else (i, a, i + n) :: findIterF tryAt f (List.drop (n - 1) rest) (i + n)
    | none => findIterF tryAt f rest (i + 1)

/-- `re.finditer` over a character list. -/
def findIter (tryAt : List Char → Option (α × List Char)) (s : List Char) :
    List (Nat × α × Nat) :=
  findIterF tryAt s.length s 0

/-! ### Description sanitisation and literal cleaning -/

/-- Fueled `re.sub(r'<[^>]*>', '', ·)`: remove HTML-like tags. -/
def removeTagsF : Nat → List Char → List Char
  | 0, l => l
  | _, [] => []
  | f + 1, c :: r =>
    if c = '<' ∧ r.contains '>' then
      removeTagsF f ((r.dropWhile (fun d => d ≠ '>')).drop 1)
    else
      c :: removeTagsF f r

/-- `re.sub(r'<[^>]*>', '', ·)` on strings. -/
def remove_tags (s : String) : String :=
  String.mk (removeTagsF s.toList.length s.toList)

/-- `GoCodeAnalyzer._clean_string_arg`. -/
def clean_string_arg (arg : String) : String :=
  if arg = "" then ""
  else
    let a := stripL arg.toList
    if 2 ≤ a.length ∧
        ((startsWithL a ['"'] ∧ a.getLast? = some '"') ∨
         (startsWithL a [squote] ∧ a.getLast? = some squote)) then
      let inner := (a.drop 1).dropLast
      let inner := replaceSub inner ['\\', '"'] ['"']
      let inner := replaceSub inner ['\\', squote] [squote]
      let inner := replaceSub inner ['\\', 'n'] ['\n']
      let inner := replaceSub inner ['\\', 't'] ['\t']
      String.mk inner
    else if startsWithL a [btick] ∧ a.getLast? = some btick ∧ 2 ≤ a.length then
      String.mk ((a.drop 1).dropLast)
    else
      String.mk a

/-! ### Path parameters and the endpoint record -/

/-- The example table of `APIDocumentation._get_param_example` (keys exactly
as written in the source). -/
def param_examples : List (String × String) :=
  [("id", "123"), ("userId", "123"), ("user_id", "123"),
   ("articleId", "456"), ("postId", "789"), ("commentId", "101")]

/-- `APIDocumentation._get_param_example`: look the lower-cased name up in
the table, defaulting to the generic placeholder. -/
def get_param_example (param_name : String) : String :=
  match param_examples.find? (fun kv => kv.1 == String.mk (lowerL param_name.toList)) with
  | some kv => kv.2
  | none => "example_value"

/-- One path-parameter descriptor. -/
structure Param where
  name : String
  type_ : String
  location : String
  example_ : String
  required : Bool
  deriving Repr, DecidableEq

/-- The pattern `:(\w+)`. -/
def tryColonParam (s : List Char) : Option (List Char × List Char) :=
  match s with
  | [] => none
  | c :: r => if c = ':' then eatClass1 isWordCh r else none

/-- The pattern `\{(\w+)\}`. -/
def tryBraceParam (s : List Char) : Option (List Char × List Char) :=
  match s with
  | [] => none
  | c :: r =>
    if c = lbrace then
      match eatClass1 isWordCh r with
      | some (run, rest) =>
        match rest with
        | d :: rest2 => if d = rbrace then some (run, rest2) else none
        | [] => none
      | none => none
    else none

/-- `APIDocumentation._extract_parameters`: `:name` matches first, then
`{name}` matches, each in left-to-right order. -/
def extract_parameters (path : String) : List Param :=
  let colon := (findIter tryColonParam path.toList).map (fun t => t.2.1)
  let brace := (findIter tryBraceParam path.toList).map (fun t => t.2.1)
  (colon ++ brace).map (fun n =>
    let nm := String.mk n
    { name := nm, type_ := "string", location := "path",
      example_ := get_param_example nm, required := true })

/-- `APIDocumentation._generate_curl_example`. -/
def generate_curl_example (method path : String) : String :=
  if method = "GET" ∨ method = "HEAD" then
    "curl -X " ++ method ++ " " ++ path
  else if method = "POST" ∨ method = "PUT" ∨ method = "PATCH" then
    "curl -X " ++ method ++ " " ++ path ++
      " -H \"Content-Type: application/json\" -d \"\x7b\x7d\""
  else
    "curl -X " ++ method ++ " " ++ path

/-- One data-shape record (populated only by the external inspector). -/
structure DataShape where
  name : String
  description : String
  shape : String
  deriving Repr, DecidableEq

/-- One endpoint record (`APIDocumentation` instance). -/
structure Endpoint where
  path : String
  method : String
  description : String
  handler_func : String
  data_shapes : List DataShape
  parameters : List Param
  framework : String
  curl_example : String
  deriving Repr, DecidableEq

/-- `APIDocumentation.__init__`: an empty description is replaced by the
placeholder, parameters are derived from the raw path. -/
def mkAPIDocumentation (path method description handler_func : String) : Endpoint :=
  { path := path, method := method,
    description := if description = "" then "Handler function" else description,
    handler_func := handler_func,
    data_shapes := [],
    parameters := extract_parameters path,
    framework := "unknown",
    curl_example := generate_curl_example method path }

/-! ### Validation -/

/-- The fixed seven-method set. -/
def valid_methods : List String :=
  ["GET", "POST", "PUT", "DELETE", "PATCH", "OPTIONS", "HEAD"]

/-- The description sanitisation step of `_validate_endpoint`: strip
HTML-like tags, then truncate to 1000 characters plus an ellipsis marker;
an empty description is left untouched. -/
def sanitize_description (d : String) : String :=
  if d = "" then d
  else
    let d1 := remove_tags d
    if 1000 < d1.toList.length then String.mk (d1.toList.take 1000) ++ "..."
    else d1

/-- `GoCodeAnalyzer._validate_endpoint`: the Python version mutates the
record in place and returns a boolean; here it returns the updated record,
or `none` when rejected. -/
def validate_endpoint (e : Endpoint) : Option Endpoint :=
  if e.path = "" then none
  else
    let p := normalize_path e.path
    if startsWithL p.toList ['/'] = false then none
    else if 500 < p.toList.length then none
    else if valid_methods.contains e.method = false then none
    else
      some { e with path := p, description := sanitize_description e.description }

/-! ### Deduplication and conflict resolution -/

/-- One attempt entry of the duplicate tracker. -/
structure Attempt where
  endpoint : Endpoint
  handler : String
  description : String
  file : String
  deriving Repr

/-- One resolved conflict record. -/
structure Conflict where
  method : String
  path : String
  existing_handler : String
  existing_description : String
  existing_file : String
  new_handler : String
  new_description : String
  new_file : String
  resolution : String
  deriving Repr

/-- The analyzer's mutable state (`GoCodeAnalyzer` instance fields). -/
structure AnalyzerState where
  endpoints : List Endpoint
  seen_endpoints : List (String × String)
  duplicate_tracker : List ((String × String) × List Attempt)
  duplicate_conflicts : List Conflict
  endpoints_found : Nat
  duplicates_found : Nat
  duplicates_skipped : Nat
  current_file : Option String

/-- A fresh analyzer (`GoCodeAnalyzer.__init__`). -/
def initState : AnalyzerState :=
  { endpoints := [], seen_endpoints := [], duplicate_tracker := [],
    duplicate_conflicts := [], endpoints_found := 0, duplicates_found := 0,
    duplicates_skipped := 0, current_file := none }

/-- Append an attempt under its key in the tracker (Python
`dict.setdefault(key, []).append(...)`, insertion-ordered). -/
def trackerAdd : List ((String × String) × List Attempt) → (String × String) →
    Attempt → List ((String × String) × List Attempt)
  | [], k, a => [(k, [a])]
  | (k', l) :: rest, k, a =>
    if k' = k then (k', l ++ [a]) :: rest
    else (k', l) :: trackerAdd rest k a

/-- Look a key up in the tracker. -/
def trackerGet (t : List ((String × String) × List Attempt))
    (k : String × String) : List Attempt :=
  match t.find? (fun kv => kv.1 == k) with
  | some kv => kv.2
  | none => []

/-- Total number of attempt entries over all keys. -/
def trackerTotal (st : AnalyzerState) : Nat :=
  (st.duplicate_tracker.map (fun kv => kv.2.length)).sum

/-- `GoCodeAnalyzer._resolve_duplicate_conflict`. -/
def resolve_duplicate_conflict (existing new : Endpoint) : String :=
  if new.description ≠ "" ∧ existing.description.length < new.description.length ∧
      10 < new.description.length then
    "replace_with_new"
  else if existing.handler_func ≠ new.handler_func ∧
      existing.description ≠ "" ∧ new.description ≠ "" then
    "merge_descriptions"
  else if existing.handler_func = new.handler_func then
    "kept_first"
  else
    "kept_first"

/-- Replace the first endpoint with the given key (the in-place update in
the `replace_with_new` branch). -/
def replaceFirstKey : List Endpoint → String → String → Endpoint → List Endpoint
  | [], _, _, _ => []
  | e :: r, m, p, new =>
    if e.method = m ∧ e.path = p then new :: r
    else e :: replaceFirstKey r m p new

/-- Append `" | " ++ d` to the description of the first endpoint with the
given key (the in-place mutation in the `merge_descriptions` branch). -/
def mergeDescFirst : List Endpoint → String → String → String → List Endpoint
  | [], _, _, _ => []
  | e :: r, m, p, d =>
    if e.method = m ∧ e.path = p then
      { e with description := e.description ++ " | " ++ d } :: r
    else e :: mergeDescFirst r m p d

/-- `GoCodeAnalyzer._handle_duplicate_endpoint`. -/
def handle_duplicate_endpoint (st : AnalyzerState) (key : String × String)
    (new : Endpoint) : AnalyzerState :=
  let m := key.1
  let p := key.2
  match st.endpoints.find? (fun ep => ep.method == m && ep.path == p) with
  | none => st
  | some existing =>
    let attempts := trackerGet st.duplicate_tracker key
    let existingFile := match attempts with
      | [] => "unknown"
      | a :: _ => a.file
    let res := resolve_duplicate_conflict existing new
    let step : List Endpoint × String :=
      if res = "replace_with_new" then
        (replaceFirstKey st.endpoints m p new, "replaced_with_new")
      else if res = "merge_descriptions" then
        if new.description ≠ "" ∧
            containsSub existing.description.toList new.description.toList = false then
          (mergeDescFirst st.endpoints m p new.description, "descriptions_merged")
        else (st.endpoints, res)
      else (st.endpoints, res)
    let conflict : Conflict :=
      { method := m, path := p,
        existing_handler := existing.handler_func,
        existing_description := existing.description,
        existing_file := existingFile,
        new_handler := new.handler_func,
        new_description := new.description,
        new_file := st.current_file.getD "unknown",
        resolution := step.2 }
    { st with endpoints := step.1,
              duplicate_conflicts := st.duplicate_conflicts ++ [conflict],
              duplicates_skipped := st.duplicates_skipped + 1 }

/-- `GoCodeAnalyzer._add_endpoint` — the `admit()` operation. -/
def add_endpoint (st : AnalyzerState) (endpoint : Endpoint) : AnalyzerState :=
  match validate_endpoint endpoint with
  | none => st
  | some e =>
    let key := (e.method, e.path)
    let att : Attempt :=
      { endpoint := e, handler := e.handler_func, description := e.description,
        file := st.current_file.getD "unknown" }
    let st := { st with duplicate_tracker := trackerAdd st.duplicate_tracker key att }
    if st.seen_endpoints.contains key then
      let st := { st with duplicates_found := st.duplicates_found + 1 }
      handle_duplicate_endpoint st key e
    else
      { st with seen_endpoints := key :: st.seen_endpoints,
                endpoints := st.endpoints ++ [e],
                endpoints_found := st.endpoints_found + 1 }

/-- A sequence of `admit()` calls against a fresh analyzer. -/
def admitAll (es : List Endpoint) : AnalyzerState :=
  es.foldl add_endpoint initState

/-- The dedup key of a record. -/
def keyOf (e : Endpoint) : String × String := (e.method, e.path)

/-! ### Comment stripping -/

/-- Fueled `re.sub(r'//.*?$', '', ·, flags=re.MULTILINE)`: delete from each
`//` to the end of its line. -/
def removeLineCommentsF : Nat → List Char → List Char
  | 0, l => l
  | _, [] => []
  | f + 1, c :: r =>
    if startsWithL (c :: r) ['/', '/'] then
      removeLineCommentsF f ((c :: r).dropWhile (fun d => d ≠ '\n'))
    else
      c :: removeLineCommentsF f r

/-- Skip to just after the first `*/`, if any. -/
def dropThroughStarSlash : List Char → Option (List Char)
  | [] => none
  | c :: r =>
    if startsWithL (c :: r) ['*', '/'] then some (r.drop 1)
    else dropThroughStarSlash r

/-- Fueled `re.sub(r'/\*.*?\*/', '', ·, flags=re.DOTALL)`: delete each
non-greedy `/* ... */` span; a `/*` with no later `*/` is kept. -/
def removeBlockCommentsF : Nat → List Char → List Char
  | 0, l => l
  | _, [] => []
  | f + 1, c :: r =>
    if startsWithL (c :: r) ['/', '*'] then
      match dropThroughStarSlash (r.drop 1) with
      | some rest => removeBlockCommentsF f rest
      | none => c :: removeBlockCommentsF f r
    else
      c :: removeBlockCommentsF f r

/-- `GoCodeAnalyzer._remove_comments`: line comments are removed first, then
block comments. -/
def remove_comments (content : String) : String :=
  let l1 := removeLineCommentsF content.toList.length content.toList
  String.mk (removeBlockCommentsF l1.length l1)

/-! ### Description resolver -/

/-- Keywords that disqualify a comment fragment. -/
def commentKeywords : List String := ["http.", "router.", "func("]

/-- The backward scan of `_find_function_comment`, over the reversed list of
the (at most ten) lines preceding the call. -/
def findCommentGo (func_name : String) : List (List Char) → List (List Char) → List (List Char)
  | [], acc => acc
  | line :: rest, acc =>
    let l := stripL line
    if startsWithL l ['/', '/'] then
      let ct := stripL (l.drop 2)
      if ct ≠ [] ∧
          (commentKeywords.any (fun kw => containsSub (lowerL ct) kw.toList)) = false then
        findCommentGo func_name rest (ct :: acc)
      else
        findCommentGo func_name rest acc
    else if startsWithL l "func".toList ∧ containsSub l func_name.toList then acc
    else if l ≠ [] ∧ startsWithL l ['/', '/'] = false ∧ acc ≠ [] then acc
    else findCommentGo func_name rest acc

/-- `GoCodeAnalyzer._find_function_comment`: looks back through the original
(comment-preserving) text at the given offset. -/
def find_function_comment (original : String) (func_name : String)
    (call_position : Nat) : String :=
  let lines := splitOnNl (original.toList.take call_position)
  let lastTen := lines.drop (lines.length - 10)
  let acc := findCommentGo func_name lastTen.reverse []
  if acc = [] then "" else String.mk (List.intercalate [' '] acc)

/-! ### Pattern recognizers

One matcher per concrete regex of the source, tried at a single position;
`findIter` turns each into a full scan. -/

/-- `http\.HandleFunc\s*\(\s*(["'][^"']*["']|` backtick-form `)\s*,\s*([^,)]+)\)` -/
def tryHttpHandleFunc (s : List Char) : Option ((List Char × List Char) × List Char) := do
  let s ← eatLit "http.HandleFunc".toList s
  let s := eatSpaces s
  let s ← eatLit ['('] s
  let s := eatSpaces s
  let (g1, s) ← matchStrLit s
  let s := eatSpaces s
  let s ← eatLit [','] s
  let s := eatSpaces s
  let (g2, s) ← eatClass1 (fun c => !(c = ',' || c = ')')) s
  let s ← eatLit [')'] s
  pure ((g1, g2), s)

/-- `\w+\.VERB\s*\(\s*(["'][^"']*["']|` backtick-form `)\s*,\s*([^,)]+)\)` -/
def tryVerbQuoted (verb : String) (s : List Char) :
    Option ((List Char × List Char) × List Char) := do
  let (_, s) ← matchWord1 s
  let s ← eatLit ('.' :: verb.toList) s
  let s := eatSpaces s
  let s ← eatLit ['('] s
  let s := eatSpaces s
  let (g1, s) ← matchStrLit s
  let s := eatSpaces s
  let s ← eatLit [','] s
  let s := eatSpaces s
  let (g2, s) ← eatClass1 (fun c => !(c = ',' || c = ')')) s
  let s ← eatLit [')'] s
  pure ((g1, g2), s)

/-- A single `"` or `'`. -/
def eatQuoteCh (s : List Char) : Option (List Char) :=
  match s with
  | [] => none
  | c :: r => if c = '"' ∨ c = squote then some r else none

/-- `\w+\.Handle\s*\(\s*["'](VERB)["']\s*,\s*([^,]+)\s*,\s*([^)]+)\)` -/
def tryHandleDispatch (verb : String) (s : List Char) :
    Option ((List Char × List Char × List Char) × List Char) := do
  let (_, s) ← matchWord1 s
  let s ← eatLit ".Handle".toList s
  let s := eatSpaces s
  let s ← eatLit ['('] s
  let s := eatSpaces s
  let s ← eatQuoteCh s
  let s ← eatLit verb.toList s
  let s ← eatQuoteCh s
  let s := eatSpaces s
  let s ← eatLit [','] s
  let s := eatSpaces s
  let (g2, s) ← eatClass1 (fun c => c ≠ ',') s
  let s := eatSpaces s
  let s ← eatLit [','] s
  let s := eatSpaces s
  let (g3, s) ← eatClass1 (fun c => c ≠ ')') s
  let s ← eatLit [')'] s
  pure ((verb.toList, g2, g3), s)

/-- `\w+\.VERB\s*\(\s*([^,]+)\s*,\s*([^)]+)\)` (the echo-style recognizer). -/
def tryVerbUnquoted (verb : String) (s : List Char) :
    Option ((List Char × List Char) × List Char) := do
  let (_, s) ← matchWord1 s
  let s ← eatLit ('.' :: verb.toList) s
  let s := eatSpaces s
  let s ← eatLit ['('] s
  let s := eatSpaces s
  let (g1, s) ← eatClass1 (fun c => c ≠ ',') s
  let s := eatSpaces s
  let s ← eatLit [','] s
  let s := eatSpaces s
  let (g2, s) ← eatClass1 (fun c => c ≠ ')') s
  let s ← eatLit [')'] s
  pure ((g1, g2), s)

/-- `\w+\.HandleFunc\s*\(\s*([^,]+)\s*,\s*([^)]+)\)\s*\.Methods\s*\(\s*([^)]+)\s*\)` -/
def tryMuxChained (s : List Char) :
    Option ((List Char × List Char × List Char) × List Char) := do
  let (_, s) ← matchWord1 s
  let s ← eatLit ".HandleFunc".toList s
  let s := eatSpaces s
  let s ← eatLit ['('] s
  let s := eatSpaces s
  let (g1, s) ← eatClass1 (fun c => c ≠ ',') s
  let s := eatSpaces s
  let s ← eatLit [','] s
  let s := eatSpaces s
  let (g2, s) ← eatClass1 (fun c => c ≠ ')') s
  let s ← eatLit [')'] s
  let s := eatSpaces s
  let s ← eatLit ".Methods".toList s
  let s := eatSpaces s
  let s ← eatLit ['('] s
  let s := eatSpaces s
  let (g3, s) ← eatClass1 (fun c => c ≠ ')') s
  let s := eatSpaces s
  let s ← eatLit [')'] s
  pure ((g1, g2, g3), s)

/-- `\w+\.Path\s*\(\s*([^)]+)\)\s*\.HandlerFunc\s*\(\s*([^)]+)\)\s*\.Methods\s*\(\s*([^)]+)\s*\)` -/
def tryMuxPath (s : List Char) :
    Option ((List Char × List Char × List Char) × List Char) := do
  let (_, s) ← matchWord1 s
  let s ← eatLit ".Path".toList s
  let s := eatSpaces s
  let s ← eatLit ['('] s
  let s := eatSpaces s
  let (g1, s) ← eatClass1 (fun c => c ≠ ')') s
  let s ← eatLit [')'] s
  let s := eatSpaces s
  let s ← eatLit ".HandlerFunc".toList s
  let s := eatSpaces s
  let s ← eatLit ['('] s
  let s := eatSpaces s
  let (g2, s) ← eatClass1 (fun c => c ≠ ')') s
  let s ← eatLit [')'] s
  let s := eatSpaces s
  let s ← eatLit ".Methods".toList s
  let s := eatSpaces s
  let s ← eatLit ['('] s
  let s := eatSpaces s
  let (g3, s) ← eatClass1 (fun c => c ≠ ')') s
  let s := eatSpaces s
  let s ← eatLit [')'] s
  pure ((g1, g2, g3), s)

/-- `\w+\.HandleFunc\s*\(\s*([^,]+)\s*,\s*([^)]+)\)` (the bare, no-methods
recognizer). -/
def tryMuxBare (s : List Char) :
    Option ((List Char × List Char) × List Char) := do
  let (_, s) ← matchWord1 s
  let s ← eatLit ".HandleFunc".toList s
  let s := eatSpaces s
  let s ← eatLit ['('] s
  let s := eatSpaces s
  let (g1, s) ← eatClass1 (fun c => c ≠ ',') s
  let s := eatSpaces s
  let s ← eatLit [','] s
  let s := eatSpaces s
  let (g2, s) ← eatClass1 (fun c => c ≠ ')') s
  let s ← eatLit [')'] s
  pure ((g1, g2), s)

/-- The case-insensitive verb alternation `(GET|POST|PUT|DELETE|PATCH)`,
tried in source order; returns the verb text as it appeared. -/
def matchVerbCI (s : List Char) : Option (List Char × List Char) :=
  (eatLitCI "GET".toList s).orElse fun _ =>
  (eatLitCI "POST".toList s).orElse fun _ =>
  (eatLitCI "PUT".toList s).orElse fun _ =>
  (eatLitCI "DELETE".toList s).orElse fun _ =>
  eatLitCI "PATCH".toList s

/-- `\w+\.(GET|POST|PUT|DELETE|PATCH)\s*\(\s*([^,]+)\s*,\s*([^)]+)\)`
with `re.IGNORECASE`. -/
def tryGeneric (s : List Char) :
    Option ((List Char × List Char × List Char) × List Char) := do
  let (_, s) ← matchWord1 s
  let s ← eatLit ['.'] s
  let (verb, s) ← matchVerbCI s
  let s := eatSpaces s
  let s ← eatLit ['('] s
  let s := eatSpaces s
  let (g2, s) ← eatClass1 (fun c => c ≠ ',') s
  let s := eatSpaces s
  let s ← eatLit [','] s
  let s := eatSpaces s
  let (g3, s) ← eatClass1 (fun c => c ≠ ')') s
  let s ← eatLit [')'] s
  pure ((verb, g2, g3), s)

/-- Fueled `re.finditer(r'["\']([A-Z]+)["\']|(\b[A-Z]{3,7}\b)', ·)`:
extract quoted upper-case tokens, and bare maximal upper-case runs of length
3 to 7 delimited by non-word characters.  `prev` is the character before the
current position (for the word boundary). -/
def methodTokensF : Nat → Option Char → List Char → List String
  | 0, _, _ => []
  | _, _, [] => []
  | f + 1, prev, c :: r =>
    if c = '"' ∨ c = squote then
      match r.takeWhile isUpperCh, r.dropWhile isUpperCh with
      | run@(_ :: _), d :: rest2 =>
        if d = '"' ∨ d = squote then
          String.mk run :: methodTokensF f (some d) rest2
        else methodTokensF f (some c) r
      | _, _ => methodTokensF f (some c) r
    else if isUpperCh c && (match prev with
        | none => true
        | some pc => !isWordCh pc) then
      let run := c :: r.takeWhile isUpperCh
      let rest := r.dropWhile isUpperCh
      if (decide (3 ≤ run.length) && decide (run.length ≤ 7) && (match rest with
          | [] => true
          | d :: _ => !isWordCh d)) then
        String.mk run :: methodTokensF f (some (run.getLastD c)) rest
      else methodTokensF f (some c) r
    else methodTokensF f (some c) r

/-- The method tokens of a `.Methods(...)` argument list, filtered to the
seven known verbs (the loop in `_extract_mux_routes`). -/
def extract_method_tokens (methods_str : List Char) : List String :=
  (methodTokensF methods_str.length none methods_str).filter
    (fun m => valid_methods.contains m)

/-! ### Extractors -/

/-- The per-match body of `_extract_http_handlefunc`. -/
def http_handlefunc_step (original : String) (st : AnalyzerState)
    (m : Nat × (List Char × List Char) × Nat) : AnalyzerState :=
  let path := clean_string_arg (String.mk m.2.1.1)
  let handler_func := clean_string_arg (String.mk m.2.1.2)
  if path = "" ∨ startsWithL path.toList ['/'] = false then st
  else
    let description := find_function_comment original handler_func m.1
    if path ≠ "" ∧ handler_func ≠ "" then
      add_endpoint st (mkAPIDocumentation path "GET" description handler_func)
    else st

/-- `GoCodeAnalyzer._extract_http_handlefunc`. -/
def extract_http_handlefunc (content original : String)
    (st : AnalyzerState) : AnalyzerState :=
  (findIter tryHttpHandleFunc content.toList).foldl (http_handlefunc_step original) st

/-- The per-match body of the direct-verb loop of `_extract_gin_routes`. -/
def gin_direct_step (verb : String) (original : String) (st : AnalyzerState)
    (m : Nat × (List Char × List Char) × Nat) : AnalyzerState :=
  let path := clean_string_arg (String.mk m.2.1.1)
  let handler_func := clean_string_arg (String.mk m.2.1.2)
  if path ≠ "" ∧ startsWithL path.toList ['/'] ∧ handler_func ≠ "" then
    let description := find_function_comment original handler_func m.1
    add_endpoint st (mkAPIDocumentation path verb description handler_func)
  else st

/-- The per-match body of the `.Handle("VERB", path, handler)` loop of
`_extract_gin_routes`. -/
def gin_handle_step (original : String) (st : AnalyzerState)
    (m : Nat × (List Char × List Char × List Char) × Nat) : AnalyzerState :=
  let method_name := String.mk m.2.1.1
  let path := clean_string_arg (String.mk m.2.1.2.1)
  let handler_func := clean_string_arg (String.mk m.2.1.2.2)
  if path ≠ "" then
    let description := find_function_comment original handler_func m.1
    add_endpoint st (mkAPIDocumentation path method_name description handler_func)
  else st

/-- `GoCodeAnalyzer._extract_gin_routes`. -/
def extract_gin_routes (content original : String)
    (st : AnalyzerState) : AnalyzerState :=
  valid_methods.foldl (fun st verb =>
    let st := (findIter (tryVerbQuoted verb) content.toList).foldl
      (gin_direct_step verb original) st
    (findIter (tryHandleDispatch verb) content.toList).foldl
      (gin_handle_step original) st) st

/-- The per-match body of `_extract_echo_routes`. -/
def echo_step (verb : String) (original : String) (st : AnalyzerState)
    (m : Nat × (List Char × List Char) × Nat) : AnalyzerState :=
  let path := clean_string_arg (String.mk m.2.1.1)
  let handler_func := clean_string_arg (String.mk m.2.1.2)
  if path ≠ "" then
    let description := find_function_comment original handler_func m.1
    add_endpoint st (mkAPIDocumentation path verb description handler_func)
  else st

/-- `GoCodeAnalyzer._extract_echo_routes`. -/
def extract_echo_routes (content original : String)
    (st : AnalyzerState) : AnalyzerState :=
  valid_methods.foldl (fun st verb =>
    (findIter (tryVerbUnquoted verb) content.toList).foldl
      (echo_step verb original) st) st

/-- The per-match body of the chained-`.Methods` mux patterns; emits one
record per method token (defaulting to GET). -/
def mux_methods_step (original defaultDesc suffix : String) (st : AnalyzerState)
    (m : Nat × (List Char × List Char × List Char) × Nat) : AnalyzerState :=
  let path := clean_string_arg (String.mk m.2.1.1)
  let handler_func := clean_string_arg (String.mk m.2.1.2.1)
  let methods_str := m.2.1.2.2
  let ms := extract_method_tokens methods_str
  let methods_found := if ms = [] then ["GET"] else ms
  methods_found.foldl (fun st method =>
    if path ≠ "" then
      let d0 := find_function_comment original handler_func m.1
      let description := if d0 = "" ∨ stripL d0.toList = [] then defaultDesc else d0
      add_endpoint st (mkAPIDocumentation path method (description ++ suffix) handler_func)
    else st) st

/-- The per-match body of the bare `HandleFunc` mux pattern, with the
router-variable guard and the 50-character `.Methods(` lookahead window. -/
def mux_bare_step (content original : String) (st : AnalyzerState)
    (m : Nat × (List Char × List Char) × Nat) : AnalyzerState :=
  let router_var := lastLineL (stripL (content.toList.take m.1))
  if router_var.contains '=' ∧
      (containsSub router_var "mux.NewRouter()".toList ∨
       containsSub ((content.toList.take m.1).drop (m.1 - 200)) ".HandleFunc".toList) then
    let path := clean_string_arg (String.mk m.2.1.1)
    let handler_func := clean_string_arg (String.mk m.2.1.2)
    if containsSub ((content.toList.drop m.2.2).take 50) ".Methods(".toList then st
    else if path ≠ "" then
      let d0 := find_function_comment original handler_func m.1
      let description := if d0 = "" ∨ stripL d0.toList = [] then "Router endpoint" else d0
      add_endpoint st
        (mkAPIDocumentation path "GET" (description ++ " - Gorilla Mux HandleFunc") handler_func)
    else st
  else st

/-- `GoCodeAnalyzer._extract_mux_routes`: patterns 1 and 2 are the same
regex and the second scan is filtered by match start, exactly as in the
source. -/
def extract_mux_routes (content original : String)
    (st : AnalyzerState) : AnalyzerState :=
  let matches1 := findIter tryMuxChained content.toList
  let matches2 := findIter tryMuxChained content.toList
  let all := matches1 ++ matches2.filter
    (fun m => !((matches1.map (fun x => x.1)).contains m.1))
  let st := all.foldl (mux_methods_step original "Router endpoint" " - Gorilla Mux Handler") st
  let st := (findIter tryMuxPath content.toList).foldl
    (mux_methods_step original "Path-handler endpoint" " - Gorilla Mux Path Handler") st
  (findIter tryMuxBare content.toList).foldl (mux_bare_step content original) st

/-- The per-match body of `_extract_generic_methods`. -/
def generic_step (original : String) (st : AnalyzerState)
    (m : Nat × (List Char × List Char × List Char) × Nat) : AnalyzerState :=
  let method := String.mk m.2.1.1
  let path := clean_string_arg (String.mk m.2.1.2.1)
  let handler_func := clean_string_arg (String.mk m.2.1.2.2)
  if path ≠ "" ∧ (["Gin", "Echo", "Mux"].contains method) = false then
    let description := find_function_comment original handler_func m.1
    add_endpoint st
      (mkAPIDocumentation path (String.mk (upperL method.toList)) description handler_func)
  else st

/-- `GoCodeAnalyzer._extract_generic_methods`. -/
def extract_generic_methods (content original : String)
    (st : AnalyzerState) : AnalyzerState :=
  (findIter tryGeneric content.toList).foldl (generic_step original) st

/-! ### Per-file analysis -/

/-- `GoCodeAnalyzer._analyze_file`, given the file's text: set the current
file, strip comments, run the five extractors in order, then clear the
current file. -/
def analyze_file_content (file : String) (original : String)
    (st : AnalyzerState) : AnalyzerState :=
  let st := { st with current_file := some file }
  let content := remove_comments original
  let st := extract_http_handlefunc content original st
  let st := extract_gin_routes content original st
  let st := extract_echo_routes content original st
  let st := extract_mux_routes content original st
  let st := extract_generic_methods content original st
  { st with current_file := none }

/-- Analyze one source text with a fresh analyzer. -/
def analyze_content (original : String) : AnalyzerState :=
  analyze_file_content "main.go" original initState

/-! ### Lemmas about path normalization -/

/-- The canonical shape of a normalizer output on whitespace-free input. -/
def goodOut (l : List Char) : Prop :=
  l = [] ∨
    (startsWithL l ['/'] = true ∧ noDupSlash l = true ∧
     (∀ c ∈ l, isSpaceCh c = false) ∧ (l = ['/'] ∨ l.getLast? ≠ some '/'))

theorem dropWhile_eq_self_of_all {p : Char → Bool} {l : List Char}
    (h : ∀ c ∈ l, p c = false) : l.dropWhile p = l := by
  cases l with
  | nil => rfl
  | cons c r => simp [List.dropWhile_cons, h c (by simp)]

theorem stripL_eq_self {l : List Char} (h : ∀ c ∈ l, isSpaceCh c = false) :
    stripL l = l := by
  unfold stripL
  rw [dropWhile_eq_self_of_all h, dropWhile_eq_self_of_all, List.reverse_reverse]
  intro c hc
  exact h c (List.mem_reverse.mp hc)

theorem collapse_cons : ∀ (t : List Char) (c : Char), ∃ u, collapse (c :: t) = c :: u := by
  intro t
  induction t with
  | nil => intro c; exact ⟨[], rfl⟩
  | cons b r IH =>
    intro c
    by_cases h : c = '/' ∧ b = '/'
    · obtain ⟨u, hu⟩ := IH b
      refine ⟨u, ?_⟩
      rw [collapse, if_pos h, hu, h.1, h.2]
    · exact ⟨collapse (b :: r), by rw [collapse, if_neg h]⟩

theorem noDupSlash_collapse : ∀ l : List Char, noDupSlash (collapse l) = true := by
  intro l
  induction l with
  | nil => rfl
  | cons c t IH =>
    cases t with
    | nil => rfl
    | cons b r =>
      by_cases h : c = '/' ∧ b = '/'
      · rw [collapse, if_pos h]; exact IH
      · rw [collapse, if_neg h]
        obtain ⟨u, hu⟩ := collapse_cons r b
        rw [hu]
        rw [hu] at IH
        simp only [noDupSlash, Bool.and_eq_true, IH, and_true, Bool.not_eq_true']
        by_cases hc : c = '/'
        · by_cases hb : b = '/'
          · exact absurd ⟨hc, hb⟩ h
          · simp [hc, hb]
        · simp [hc]

theorem collapse_eq_self : ∀ {l : List Char}, noDupSlash l = true → collapse l = l := by
  intro l
  induction l with
  | nil => intro _; rfl
  | cons c t IH =>
    cases t with
    | nil => intro _; rfl
    | cons b r =>
      intro h
      simp only [noDupSlash, Bool.and_eq_true, Bool.not_eq_true'] at h
      have hcb : ¬(c = '/' ∧ b = '/') := by
        intro hx
        simp [hx.1, hx.2] at h
      rw [collapse, if_neg hcb, IH h.2]

theorem mem_collapse : ∀ {l : List Char} {c : Char}, c ∈ collapse l → c ∈ l := by
  intro l
  induction l with
  | nil => intro c h; exact absurd h (by simp [collapse])
  | cons a t IH =>
    cases t with
    | nil => intro c h; exact h
    | cons b r =>
      intro c h
      by_cases hab : a = '/' ∧ b = '/'
      · rw [collapse, if_pos hab] at h
        exact List.mem_cons_of_mem a (IH h)
      · rw [collapse, if_neg hab] at h
        rcases List.mem_cons.mp h with h1 | h2
        · exact h1 ▸ List.mem_cons_self a (b :: r)
        · exact List.mem_cons_of_mem a (IH h2)

theorem noDupSlash_append_left : ∀ (l1 l2 : List Char),
    noDupSlash (l1 ++ l2) = true → noDupSlash l1 = true := by
  intro l1
  induction l1 with
  | nil => intro l2 _; rfl
  | cons a t IH =>
    cases t with
    | nil => intro l2 _; rfl
    | cons b r =>
      intro l2 h
      simp only [List.cons_append, noDupSlash, Bool.and_eq_true] at h ⊢
      exact ⟨h.1, IH l2 h.2⟩

theorem rstripSlash_append (l : List Char) :
    rstripSlash l ++ (l.reverse.takeWhile (fun c => c = '/')).reverse = l := by
  unfold rstripSlash
  rw [← List.reverse_append, List.takeWhile_append_dropWhile, List.reverse_reverse]

theorem mem_takeWhile_pred {p : Char → Bool} :
    ∀ {l : List Char} {c : Char}, c ∈ l.takeWhile p → p c = true := by
  intro l
  induction l with
  | nil => intro c h; exact absurd h (by simp)
  | cons a t IH =>
    intro c h
    rw [List.takeWhile_cons] at h
    by_cases ha : p a
    · rw [if_pos ha] at h
      rcases List.mem_cons.mp h with h1 | h2
      · exact h1 ▸ ha
      · exact IH h2
    · rw [if_neg ha] at h
      exact absurd h (by simp)

theorem head?_dropWhile_pred {p : Char → Bool} :
    ∀ {l : List Char} {c : Char}, (l.dropWhile p).head? = some c → p c = false := by
  intro l
  induction l with
  | nil => intro c h; exact absurd h (by simp)
  | cons a t IH =>
    intro c h
    rw [List.dropWhile_cons] at h
    by_cases ha : p a
    · rw [if_pos ha] at h; exact IH h
    · rw [if_neg ha] at h
      simp only [List.head?_cons, Option.some.injEq] at h
      rw [← h]
      exact Bool.of_not_eq_true ha

theorem rstripSlash_getLast? (l : List Char) :
    rstripSlash l = [] ∨ (rstripSlash l).getLast? ≠ some '/' := by
  rcases hd : l.reverse.dropWhile (fun c => c = '/') with _ | ⟨a, t⟩
  · left
    unfold rstripSlash
    rw [hd]
    rfl
  · right
    unfold rstripSlash
    rw [hd, List.getLast?_reverse]
    intro hcontra
    simp only [List.head?_cons, Option.some.injEq] at hcontra
    have hpa : (fun c => decide (c = '/')) a = false :=
      head?_dropWhile_pred (p := fun c => decide (c = '/')) (l := l.reverse)
        (by rw [hd]; rfl)
    rw [hcontra] at hpa
    simp at hpa

theorem startsWith_slash_shape {l : List Char} (h : startsWithL l ['/'] = true) :
    ∃ t, l = '/' :: t := by
  cases l with
  | nil => exact absurd h (by simp [startsWithL])
  | cons a t =>
    refine ⟨t, ?_⟩
    simp only [startsWithL, Bool.and_eq_true] at h
    have : a = '/' := by simpa using h.1
    rw [this]

theorem goodOut_core (s1 : List Char) (h1 : startsWithL s1 ['/'] = true)
    (hws : ∀ c ∈ s1, isSpaceCh c = false) :
    goodOut (if 1 < (collapse s1).length ∧ (collapse s1).getLast? = some '/'
             then rstripSlash (collapse s1) else collapse s1) := by
  obtain ⟨t1, ht1⟩ := startsWith_slash_shape h1
  obtain ⟨u, hu⟩ := collapse_cons t1 '/'
  have hs2shape : collapse s1 = '/' :: u := by rw [ht1, hu]
  have hs2start : startsWithL (collapse s1) ['/'] = true := by
    rw [hs2shape]; simp [startsWithL]
  have hs2nds : noDupSlash (collapse s1) = true := noDupSlash_collapse s1
  have hs2ws : ∀ c ∈ collapse s1, isSpaceCh c = false :=
    fun c hc => hws c (mem_collapse hc)
  by_cases hcond : 1 < (collapse s1).length ∧ (collapse s1).getLast? = some '/'
  · rw [if_pos hcond]
    right
    have hdecomp := rstripSlash_append (collapse s1)
    have hrne : rstripSlash (collapse s1) ≠ [] := by
      intro hempty
      rw [hempty, List.nil_append] at hdecomp
      have hall : ∀ c ∈ collapse s1, c = '/' := by
        intro c hc
        rw [← hdecomp] at hc
        have := mem_takeWhile_pred (List.mem_reverse.mp hc)
        simpa using this
      rw [hs2shape] at hcond hall hs2nds
      cases u with
      | nil => simp at hcond
      | cons a v =>
        have ha : a = '/' := hall a (by simp)
        rw [ha] at hs2nds
        simp [noDupSlash] at hs2nds
    refine ⟨?_, ?_, ?_, ?_⟩
    · cases hr : rstripSlash (collapse s1) with
      | nil => exact absurd hr hrne
      | cons a v =>
        rw [hr, hs2shape] at hdecomp
        simp only [List.cons_append] at hdecomp
        have ha : a = '/' := ((List.cons.injEq _ _ _ _).mp hdecomp).1
        rw [ha]
        simp [startsWithL]
    · exact noDupSlash_append_left _ _ (by rw [hdecomp]; exact hs2nds)
    · intro c hc
      exact hs2ws c (by rw [← hdecomp]; exact List.mem_append_left _ hc)
    · rcases rstripSlash_getLast? (collapse s1) with hx | hx
      · exact absurd hx hrne
      · right; exact hx
  · rw [if_neg hcond]
    right
    refine ⟨hs2start, hs2nds, hs2ws, ?_⟩
    rw [not_and_or] at hcond
    rcases hcond with hx | hx
    · left
      rw [hs2shape] at hx ⊢
      cases u with
      | nil => rfl
      | cons a v => simp at hx
    · right; exact hx

theorem normalizeL_shape {l : List Char} (hne : l ≠ [])
    (hws : ∀ c ∈ l, isSpaceCh c = false) :
    normalizeL l =
      (if 1 < (collapse (if startsWithL l ['/'] then l else '/' :: l)).length ∧
          (collapse (if startsWithL l ['/'] then l else '/' :: l)).getLast? = some '/'
       then rstripSlash (collapse (if startsWithL l ['/'] then l else '/' :: l))
       else collapse (if startsWithL l ['/'] then l else '/' :: l)) := by
  unfold normalizeL
  rw [if_neg hne, stripL_eq_self hws]

theorem normalizeL_good {l : List Char} (h : ∀ c ∈ l, isSpaceCh c = false) :
    goodOut (normalizeL l) := by
  by_cases hl : l = []
  · left; rw [hl]; rfl
  · rw [normalizeL_shape hl h]
    apply goodOut_core
    · by_cases hst : startsWithL l ['/'] = true
      · rw [if_pos hst]; exact hst
      · rw [if_neg hst]; simp [startsWithL]
    · by_cases hst : startsWithL l ['/'] = true
      · rw [if_pos hst]; exact h
      · rw [if_neg hst]
        intro c hc
        rcases List.mem_cons.mp hc with h1 | h2
        · rw [h1]; rfl
        · exact h c h2

theorem normalizeL_fix {l : List Char} (h : goodOut l) : normalizeL l = l := by
  rcases h with h | ⟨hstart, hnds, hws, hlast⟩
  · rw [h]; rfl
  · have hne : l ≠ [] := by
      obtain ⟨t, ht⟩ := startsWith_slash_shape hstart
      rw [ht]; simp
    rw [normalizeL_shape hne hws, if_pos hstart, collapse_eq_self hnds]
    have hcond : ¬(1 < l.length ∧ l.getLast? = some '/') := by
      rcases hlast with h1 | h2
      · rw [h1]; simp
      · intro hx; exact h2 hx.2
    rw [if_neg hcond]

/-! ### Lemmas about the deduplication engine -/

/-- The dedup invariant: inventory keys are duplicate-free and every
inventory key has been marked seen. -/
def invK (st : AnalyzerState) : Prop :=
  (st.endpoints.map keyOf).Nodup ∧
    ∀ k ∈ st.endpoints.map keyOf, k ∈ st.seen_endpoints

theorem map_keyOf_replaceFirstKey (l : List Endpoint) (m p : String)
    (new : Endpoint) (h : keyOf new = (m, p)) :
    (replaceFirstKey l m p new).map keyOf = l.map keyOf := by
  induction l with
  | nil => rfl
  | cons e r IH =>
    by_cases he : e.method = m ∧ e.path = p
    · rw [replaceFirstKey, if_pos he]
      simp only [List.map_cons]
      rw [h]
      have : keyOf e = (m, p) := by
        unfold keyOf
        rw [he.1, he.2]
      rw [this]
    · rw [replaceFirstKey, if_neg he]
      simp only [List.map_cons, IH]

theorem map_keyOf_mergeDescFirst (l : List Endpoint) (m p d : String) :
    (mergeDescFirst l m p d).map keyOf = l.map keyOf := by
  induction l with
  | nil => rfl
  | cons e r IH =>
    by_cases he : e.method = m ∧ e.path = p
    · rw [mergeDescFirst, if_pos he]
      simp only [List.map_cons]
      rfl
    · rw [mergeDescFirst, if_neg he]
      simp only [List.map_cons, IH]

theorem handle_duplicate_fields (st : AnalyzerState) (key : String × String)
    (new : Endpoint) (h : keyOf new = key) :
    (handle_duplicate_endpoint st key new).endpoints.map keyOf = st.endpoints.map keyOf ∧
    (handle_duplicate_endpoint st key new).seen_endpoints = st.seen_endpoints ∧
    (handle_duplicate_endpoint st key new).duplicate_tracker = st.duplicate_tracker := by
  rcases hfind : st.endpoints.find? (fun ep => ep.method == key.1 && ep.path == key.2)
    with _ | ex
  · simp only [handle_duplicate_endpoint, hfind]
    exact ⟨trivial, trivial, trivial⟩
  · simp only [handle_duplicate_endpoint, hfind]
    refine ⟨?_, trivial, trivial⟩
    by_cases h1 : resolve_duplicate_conflict ex new = "replace_with_new"
    · rw [if_pos h1]
      exact map_keyOf_replaceFirstKey _ _ _ _ h
    · rw [if_neg h1]
      by_cases h2 : resolve_duplicate_conflict ex new = "merge_descriptions"
      · rw [if_pos h2]
        by_cases h3 : new.description ≠ "" ∧
            containsSub ex.description.toList new.description.toList = false
        · rw [if_pos h3]
          exact map_keyOf_mergeDescFirst _ _ _ _
        · rw [if_neg h3]
      · rw [if_neg h2]

theorem invK_add (st : AnalyzerState) (e : Endpoint) (h : invK st) :
    invK (add_endpoint st e) := by
  rcases hv : validate_endpoint e with _ | v
  · simp only [add_endpoint, hv]
    exact h
  · simp only [add_endpoint, hv]
    by_cases hseen : st.seen_endpoints.contains (v.method, v.path)
    · rw [if_pos hseen]
      constructor
      · rw [(handle_duplicate_fields _ (v.method, v.path) v rfl).1]
        exact h.1
      · intro k hk
        rw [(handle_duplicate_fields _ (v.method, v.path) v rfl).1] at hk
        rw [(handle_duplicate_fields _ (v.method, v.path) v rfl).2.1]
        exact h.2 k hk
    · rw [if_neg hseen]
      have hnotseen : (v.method, v.path) ∉ st.seen_endpoints := by
        intro hmem
        exact hseen (List.contains_iff_exists_mem_beq.mpr
          ⟨(v.method, v.path), hmem, by simp⟩)
      have hnotkey : (v.method, v.path) ∉ st.endpoints.map keyOf := by
        intro hmem
        exact hnotseen (h.2 _ hmem)
      constructor
      · simp only [List.map_append, List.map_cons, List.map_nil]
        rw [List.nodup_append]
        refine ⟨h.1, List.nodup_singleton _, ?_⟩
        intro a ha hb
        simp only [List.mem_singleton] at hb
        rw [hb] at ha
        exact hnotkey ha
      · intro k hk
        simp only [List.map_append, List.map_cons, List.map_nil,
          List.mem_append, List.mem_singleton] at hk
        rcases hk with hk | hk
        · exact List.mem_cons_of_mem _ (h.2 k hk)
        · rw [hk]
          exact List.mem_cons_self _ _

theorem trackerAdd_total (t : List ((String × String) × List Attempt))
    (k : String × String) (a : Attempt) :
    ((trackerAdd t k a).map (fun kv => kv.2.length)).sum =
      (t.map (fun kv => kv.2.length)).sum + 1 := by
  induction t with
  | nil => rfl
  | cons kv rest IH =>
    by_cases hk : kv.1 = k
    · rw [trackerAdd, if_pos hk]
      simp only [List.map_cons, List.sum_cons, List.length_append, List.length_cons,
        List.length_nil]
      omega
    · rw [trackerAdd, if_neg hk]
      simp only [List.map_cons, List.sum_cons, IH]
      omega

theorem trackerTotal_add (st : AnalyzerState) (e : Endpoint) :
    trackerTotal (add_endpoint st e) =
      trackerTotal st + (if (validate_endpoint e).isSome then 1 else 0) := by
  rcases hv : validate_endpoint e with _ | v
  · simp only [add_endpoint, hv]
    simp
  · simp only [add_endpoint, hv, Option.isSome_some, if_true]
    by_cases hseen : st.seen_endpoints.contains (v.method, v.path)
    · rw [if_pos hseen]
      unfold trackerTotal
      rw [(handle_duplicate_fields _ (v.method, v.path) v rfl).2.2]
      exact trackerAdd_total _ _ _
    · rw [if_neg hseen]
      unfold trackerTotal
      exact trackerAdd_total _ _ _

theorem invK_foldl (es : List Endpoint) :
    ∀ st : AnalyzerState, invK st → invK (es.foldl add_endpoint st) := by
  induction es with
  | nil => intro st h; exact h
  | cons e rest IH =>
    intro st h
    exact IH _ (invK_add st e h)

theorem trackerTotal_foldl (es : List Endpoint) :
    ∀ st : AnalyzerState,
      trackerTotal (es.foldl add_endpoint st) =
        trackerTotal st +
          (es.filter (fun e => (validate_endpoint e).isSome)).length := by
  induction es with
  | nil => intro st; simp
  | cons e rest IH =>
    intro st
    simp only [List.foldl_cons, IH, trackerTotal_add, List.filter_cons]
    by_cases hv : (validate_endpoint e).isSome
    · simp [hv]
      omega
    · simp [hv]

theorem invK_init : invK initState := by
  constructor
  · exact List.nodup_nil
  · intro k hk
    exact absurd hk (by simp [initState])

/-! ## Claim theorems -/

/-- C1 (counterexample): two records for the same key with the *same*
handler symbol "A", where the new description is longer than the existing
one and longer than 10 characters, resolve to `replace_with_new`, not
`kept_first` — the replace rule is checked before the same-handler rule. -/
theorem resolve_same_handler_replaced_counterexample :
    (⟨"/w", "GET", "short", "A", [], [], "unknown", ""⟩ : Endpoint).handler_func =
        (⟨"/w", "GET", "a longer description!", "A", [], [], "unknown", ""⟩ : Endpoint).handler_func ∧
      resolve_duplicate_conflict
          ⟨"/w", "GET", "short", "A", [], [], "unknown", ""⟩
          ⟨"/w", "GET", "a longer description!", "A", [], [], "unknown", ""⟩ =
        "replace_with_new" ∧
      resolve_duplicate_conflict
          ⟨"/w", "GET", "short", "A", [], [], "unknown", ""⟩
          ⟨"/w", "GET", "a longer description!", "A", [], [], "unknown", ""⟩ ≠
        "kept_first" := by
  refine ⟨rfl, rfl, ?_⟩
  decide

/-- C1 (amended): for a duplicate whose existing and new records share the
same handler symbol, the resolution selected is `kept_first` *provided* the
replace rule does not fire first, i.e. provided the new description is not
simultaneously non-empty, strictly longer than the existing one, and longer
than 10 characters. -/
theorem resolve_same_handler_kept_first (ex new : Endpoint)
    (hh : ex.handler_func = new.handler_func)
    (hrep : ¬(new.description ≠ "" ∧ ex.description.length < new.description.length ∧
              10 < new.description.length)) :
    resolve_duplicate_conflict ex new = "kept_first" := by
  unfold resolve_duplicate_conflict
  rw [if_neg hrep]
  have hm : ¬(ex.handler_func ≠ new.handler_func ∧ ex.description ≠ "" ∧
      new.description ≠ "") := by
    intro hx
    exact hx.1 hh
  rw [if_neg hm]
  by_cases h3 : ex.handler_func = new.handler_func
  · rw [if_pos h3]
  · rw [if_neg h3]

/-- C1 (witness): the amended theorem at two concrete same-handler records
with equal (empty) descriptions. -/
theorem resolve_same_handler_kept_first_witness :
    resolve_duplicate_conflict
      ⟨"/w", "GET", "", "A", [], [], "unknown", ""⟩
      ⟨"/w", "GET", "", "A", [], [], "unknown", ""⟩ = "kept_first" :=
  resolve_same_handler_kept_first _ _ rfl (by decide)

/-- C2: when a record with handler "A" and empty description has been
admitted for a (GET, p) key and a record with handler "B" and description
"Creates a widget" is then admitted for the same key, the resolution
selected is `replace_with_new` and the admitted record's handler symbol
afterwards is "B" (for any already-normalized valid path `p`). -/
theorem admit_better_description_replaces (p : String) (h1 : normalize_path p = p)
    (h2 : startsWithL p.toList ['/'] = true) (h3 : p.toList.length ≤ 500) :
    resolve_duplicate_conflict
        ⟨p, "GET", "", "A", [], [], "unknown", ""⟩
        ⟨p, "GET", "Creates a widget", "B", [], [], "unknown", ""⟩ =
      "replace_with_new" ∧
    (add_endpoint (add_endpoint initState ⟨p, "GET", "", "A", [], [], "unknown", ""⟩)
        ⟨p, "GET", "Creates a widget", "B", [], [], "unknown", ""⟩).endpoints.map
      (fun e => e.handler_func) = ["B"] := by
  have hpne : p ≠ "" := by
    intro h0
    rw [h0] at h2
    simp [startsWithL] at h2
  have hval1 : validate_endpoint (⟨p, "GET", "", "A", [], [], "unknown", ""⟩ : Endpoint) =
      some ⟨p, "GET", "", "A", [], [], "unknown", ""⟩ := by
    simp only [validate_endpoint, h1, h2]
    rw [if_neg hpne, if_neg (by simp), if_neg (by omega), if_neg (by decide)]
    rfl
  have hval2 : validate_endpoint
        (⟨p, "GET", "Creates a widget", "B", [], [], "unknown", ""⟩ : Endpoint) =
      some ⟨p, "GET", "Creates a widget", "B", [], [], "unknown", ""⟩ := by
    simp only [validate_endpoint, h1, h2]
    rw [if_neg hpne, if_neg (by simp), if_neg (by omega), if_neg (by decide)]
    rfl
  refine ⟨rfl, ?_⟩
  have hstep1 : add_endpoint initState ⟨p, "GET", "", "A", [], [], "unknown", ""⟩ =
      { endpoints := [⟨p, "GET", "", "A", [], [], "unknown", ""⟩],
        seen_endpoints := [("GET", p)],
        duplicate_tracker := [(("GET", p),
          [⟨⟨p, "GET", "", "A", [], [], "unknown", ""⟩, "A", "", "unknown"⟩])],
        duplicate_conflicts := [], endpoints_found := 1, duplicates_found := 0,
        duplicates_skipped := 0, current_file := none } := by
    simp only [add_endpoint, hval1]
    rw [if_neg (by simp [initState])]
    rfl
  rw [hstep1]
  simp only [add_endpoint, hval2]
  rw [if_pos (by simp)]
  have hfind : List.find?
      (fun ep => ep.method == "GET" && ep.path == p)
      [(⟨p, "GET", "", "A", [], [], "unknown", ""⟩ : Endpoint)] =
      some ⟨p, "GET", "", "A", [], [], "unknown", ""⟩ := by
    simp
  have hres : resolve_duplicate_conflict
      ⟨p, "GET", "", "A", [], [], "unknown", ""⟩
      ⟨p, "GET", "Creates a widget", "B", [], [], "unknown", ""⟩ =
      "replace_with_new" := rfl
  simp only [handle_duplicate_endpoint, hfind]
  rw [if_pos hres]
  simp only [replaceFirstKey]
  rw [if_pos (by simp)]
  rfl

/-- C2 (witness): the replacement scenario at the concrete key
(GET, "/widgets"). -/
theorem admit_better_description_replaces_witness :
    resolve_duplicate_conflict
        ⟨"/widgets", "GET", "", "A", [], [], "unknown", ""⟩
        ⟨"/widgets", "GET", "Creates a widget", "B", [], [], "unknown", ""⟩ =
      "replace_with_new" ∧
    (add_endpoint (add_endpoint initState ⟨"/widgets", "GET", "", "A", [], [], "unknown", ""⟩)
        ⟨"/widgets", "GET", "Creates a widget", "B", [], [], "unknown", ""⟩).endpoints.map
      (fun e => e.handler_func) = ["B"] :=
  admit_better_description_replaces "/widgets" (by decide) (by decide) (by decide)

/-- C3 (counterexample): one `admit()` call with a record whose method
"FOO" fails validation produces zero attempt-log entries, so the attempt
log's total entry count does not equal the number of `admit()` calls. -/
theorem attempt_log_count_counterexample :
    trackerTotal (admitAll [⟨"/x", "FOO", "", "h", [], [], "unknown", ""⟩]) ≠
      [(⟨"/x", "FOO", "", "h", [], [], "unknown", ""⟩ : Endpoint)].length := by
  decide

/-- C3 (amended): after any sequence of `admit()` calls against a fresh
analyzer, the inventory contains at most one record per (method, path) key,
and the attempt log's total entry count equals the number of `admit()`
calls whose record passes validation. -/
theorem inventory_key_nodup_and_attempt_log_count (es : List Endpoint) :
    ((admitAll es).endpoints.map keyOf).Nodup ∧
      trackerTotal (admitAll es) =
        (es.filter (fun e => (validate_endpoint e).isSome)).length := by
  constructor
  · exact (invK_foldl es initState invK_init).1
  · unfold admitAll
    rw [trackerTotal_foldl]
    simp [trackerTotal, initState]

/-- C3 (witness): the amended theorem at a one-element admit sequence. -/
theorem inventory_key_nodup_and_attempt_log_count_witness :
    ((admitAll [⟨"/ok", "GET", "", "h", [], [], "unknown", ""⟩]).endpoints.map keyOf).Nodup ∧
      trackerTotal (admitAll [⟨"/ok", "GET", "", "h", [], [], "unknown", ""⟩]) =
        ([(⟨"/ok", "GET", "", "h", [], [], "unknown", ""⟩ : Endpoint)].filter
          (fun e => (validate_endpoint e).isSome)).length :=
  inventory_key_nodup_and_attempt_log_count [⟨"/ok", "GET", "", "h", [], [], "unknown", ""⟩]

/-- C4: evaluating parameter extraction at the claim's two paths.  For
"/users/:id" the result is one parameter "id" with example "123", as
claimed; but for "/posts/{postId}/comments/{commentId}" both parameters get
the generic placeholder "example_value" instead of "789" and "101", because
the lookup lower-cases the parameter name while the table's keys "postId"
and "commentId" are mixed-case and therefore unreachable. -/
theorem param_example_lookup_eval :
    (extract_parameters "/users/:id").map (fun q => (q.name, q.example_)) =
        [("id", "123")] ∧
      (extract_parameters "/posts/{postId}/comments/{commentId}").map
          (fun q => (q.name, q.example_)) =
        [("postId", "example_value"), ("commentId", "example_value")] :=
  ⟨rfl, rfl⟩

/-- C5 (counterexample): the source text "e.GET(users, handler)" contains
no slash at all — so every raw match's cleaned path token fails to start
with '/' — yet analysis admits a record (with path "/users", the slash
being prefixed by normalization). -/
theorem slashless_token_admitted_counterexample :
    ("e.GET(users, handler)".toList.all (fun c => c ≠ '/')) = true ∧
      (analyze_content "e.GET(users, handler)").endpoints.map (fun e => e.path) =
        ["/users"] :=
  ⟨rfl, rfl⟩

/-- C5 (amended): the direct-handler (`http.HandleFunc`) recognizer does
discard a raw match whose cleaned path token does not start with '/' before
the record builder runs: its per-match step leaves the analyzer state
unchanged. -/
theorem direct_handler_discards_nonslash_token (original : String)
    (st : AnalyzerState) (m : Nat × (List Char × List Char) × Nat)
    (h : startsWithL (clean_string_arg (String.mk m.2.1.1)).toList ['/'] = false) :
    http_handlefunc_step original st m = st := by
  simp only [http_handlefunc_step]
  rw [if_pos (Or.inr h)]

/-- C5 (witness): the direct-handler guard at the concrete token "users". -/
theorem direct_handler_discards_nonslash_token_witness :
    http_handlefunc_step "x" initState (0, ("users".toList, "h".toList), 0) = initState :=
  direct_handler_discards_nonslash_token "x" initState
    (0, ("users".toList, "h".toList), 0) (by decide)

/-- C6 (counterexample): admitting a record whose description is 1001
characters long leaves an inventory record whose description has length
1003 (1000 characters plus the three-character ellipsis marker), exceeding
the claimed bound of 1000. -/
theorem description_truncation_counterexample :
    ((add_endpoint initState
        ⟨"/a", "GET", String.mk (List.replicate 1001 'a'), "h", [], [], "unknown", ""⟩).endpoints.map
      (fun e => e.description.length)) = [1003] ∧ ¬(1003 ≤ 1000) := by
  refine ⟨rfl, by decide⟩

/-- C6 (amended): every record accepted by validation has its description
equal to the sanitized original (HTML-like tags removed, truncated at 1000
characters with an ellipsis marker appended) and of length at most 1003. -/
theorem validated_description_sanitized_and_bounded (e v : Endpoint)
    (h : validate_endpoint e = some v) :
    v.description = sanitize_description e.description ∧
      v.description.length ≤ 1003 := by
  have hv : v.description = sanitize_description e.description := by
    simp only [validate_endpoint] at h
    split at h
    · exact absurd h (by simp)
    · split at h
      · exact absurd h (by simp)
      · split at h
        · exact absurd h (by simp)
        · split at h
          · exact absurd h (by simp)
          · simp only [Option.some.injEq] at h
            rw [← h]
  refine ⟨hv, ?_⟩
  rw [hv]
  unfold sanitize_description
  by_cases he : e.description = ""
  · rw [if_pos he]
    rw [he]
    decide
  · rw [if_neg he]
    by_cases h1000 : 1000 < (remove_tags e.description).toList.length
    · rw [if_pos h1000]
      have hlen : (String.mk ((remove_tags e.description).toList.take 1000) ++ "...").length =
          ((remove_tags e.description).toList.take 1000).length + 3 := by
        rw [String.length_append]
        rfl
      rw [hlen, List.length_take]
      omega
    · rw [if_neg h1000]
      have hlen : (remove_tags e.description).length =
          (remove_tags e.description).toList.length := rfl
      omega

/-- C6 (witness): the amended theorem at a concrete valid record. -/
theorem validated_description_sanitized_and_bounded_witness :
    (⟨"/a", "GET", "x", "h", [], [], "unknown", ""⟩ : Endpoint).description =
        sanitize_description "x" ∧
      (⟨"/a", "GET", "x", "h", [], [], "unknown", ""⟩ : Endpoint).description.length ≤ 1003 :=
  validated_description_sanitized_and_bounded
    ⟨"/a", "GET", "x", "h", [], [], "unknown", ""⟩ _ rfl

/-- C7 (counterexample): path normalization is not idempotent on all path
strings: normalizing "a /" gives "/a " (the trailing-slash strip exposes a
space), and normalizing again gives "/a". -/
theorem normalize_not_idempotent_counterexample :
    normalize_path (normalize_path "a /") ≠ normalize_path "a /" := by
  decide

/-- C7 (amended): path normalization is idempotent on every path string
that contains no whitespace character. -/
theorem normalize_idempotent_on_spaceless (p : String)
    (h : ∀ c ∈ p.toList, isSpaceCh c = false) :
    normalize_path (normalize_path p) = normalize_path p := by
  unfold normalize_path
  exact congrArg String.mk (normalizeL_fix (normalizeL_good h))

/-- C7 (witness): idempotence at the concrete whitespace-free path
"/api//v1/". -/
theorem normalize_idempotent_on_spaceless_witness :
    normalize_path (normalize_path "/api//v1/") = normalize_path "/api//v1/" :=
  normalize_idempotent_on_spaceless "/api//v1/" (by decide)

/-- C8: evaluating the analyzer at a text whose route line lies inside a
block comment whose terminator line is "// */": line-comment removal runs
first and deletes the terminator, the block comment is left unterminated,
and a record for (GET, "/secret") is admitted to the inventory. -/
theorem commented_route_admitted_eval :
    (analyze_content "/*\nrouter.GET(\"/secret\", h)\n// */\n").endpoints.map
      (fun e => (e.method, e.path)) = [("GET", "/secret")] := by
  rfl

/-- C9 (counterexample): a `.HandleFunc("/x", h)` call separated from its
`.Methods("POST")` qualifier by 60 spaces is claimed by the explicit-methods
recognizer (as POST) *and* by the bare recognizer (as default GET), because
the bare recognizer's lookahead only checks the next 50 characters. -/
theorem bare_recognizer_double_report_counterexample :
    (analyze_content ("r := mux.NewRouter()\nr.HandleFunc(\"/x\", h)" ++
        String.mk (List.replicate 60 ' ') ++ ".Methods(\"POST\")")).endpoints.map
      (fun e => (e.method, e.path)) = [("POST", "/x"), ("GET", "/x")] := by
  rfl

/-- C9 (amended): the bare (no-methods) recognizer never reports a
`.HandleFunc` call when `.Methods(` occurs within the 50 characters
immediately following the call: its per-match step leaves the analyzer
state unchanged. -/
theorem bare_recognizer_skips_methods_in_window (content original : String)
    (st : AnalyzerState) (m : Nat × (List Char × List Char) × Nat)
    (h : containsSub ((content.toList.drop m.2.2).take 50) ".Methods(".toList = true) :
    mux_bare_step content original st m = st := by
  simp only [mux_bare_step]
  by_cases h1 : (lastLineL (stripL (List.take m.1 content.toList))).contains '=' = true ∧
      (containsSub (lastLineL (stripL (List.take m.1 content.toList)))
          "mux.NewRouter()".toList = true ∨
        containsSub (List.drop (m.1 - 200) (List.take m.1 content.toList))
          ".HandleFunc".toList = true)
  · rw [if_pos h1, if_pos h]
  · rw [if_neg h1]

/-- C9 (witness): the window guard at a concrete position where
`.Methods(` immediately follows the match. -/
theorem bare_recognizer_skips_methods_in_window_witness :
    mux_bare_step ".Methods(" "" initState (0, ([], []), 0) = initState :=
  bare_recognizer_skips_methods_in_window ".Methods(" "" initState
    (0, ([], []), 0) (by decide)

/-- C10 (counterexample): a record constructed with the non-empty
description "<b>" enters the inventory with an *empty* description, because
validation's tag sanitization strips it to "". -/
theorem empty_description_in_inventory_counterexample :
    (mkAPIDocumentation "/a" "GET" "<b>" "f").description ≠ "" ∧
      ((add_endpoint initState (mkAPIDocumentation "/a" "GET" "<b>" "f")).endpoints.map
        (fun e => e.description)) = [""] := by
  refine ⟨by decide, rfl⟩

/-- C10 (amended): every record as constructed has a non-empty description:
an empty or absent description is replaced by the placeholder
"Handler function" in the constructor. -/
theorem constructed_description_nonempty
    (path method description handler_func : String) :
    (mkAPIDocumentation path method description handler_func).description ≠ "" := by
  simp only [mkAPIDocumentation]
  by_cases h : description = ""
  · rw [if_pos h]
    decide
  · rw [if_neg h]
    exact h

/-- C10 (witness): the constructor substitutes the placeholder for an empty
description. -/
theorem constructed_description_nonempty_witness :
    (mkAPIDocumentation "/a" "GET" "" "f").description ≠ "" :=
  constructed_description_nonempty "/a" "GET" "" "f"

end DocGen
